import Mathlib

/-!
Verification of the multi-step on-chain upgrade governance flow
(`testsuite/smoke-test/src/upgrade.rs`): script ordering, hash
verification, proposal identity, sequence-number tracking, and the
abort behaviour of the step-execution loop.
-/

namespace UpgradeFlow

/-- An upgrade step: index, script bytes and the path of the generated
script file (spec §3). -/
structure UpgradeStep where
  index : Nat
  script_bytes : List Nat
  script_path : String
  deriving Repr, DecidableEq

/-- Modelled from the spec: the canonical content hash over script bytes
(§4.1).  The concrete scheme (SHA3-256 in the ledger's governance module)
is external to the reviewed sources; it is modelled as an injective
encoding of byte sequences, reflecting the spec's assumption that
distinct script contents have distinct hashes. -/
def canonicalHash : List Nat → Nat
  | [] => 0
  | b :: rest => Nat.pair b (canonicalHash rest) + 1

/-- The result returned by proposal verification: the verified flag and
both hashes for diagnosis (spec §4.1). -/
structure VerificationResult where
  verified : Bool
  computed_hash : Nat
  onchain_hash : Nat
  deriving Repr, DecidableEq

/-- Modelled from the spec: `verify_proposal` (the CLI-side verifier used
at upgrade.rs:288-293; its implementation is external to the reviewed
sources).  It computes the canonical hash of the step's script bytes and
compares it with the on-chain approved execution hash:
`verified = (computed_hash == onchain_hash)`. -/
def verify_proposal (step : UpgradeStep) (onchain : Nat) : VerificationResult :=
  { verified := canonicalHash step.script_bytes == onchain
    computed_hash := canonicalHash step.script_bytes
    onchain_hash := onchain }

/-- The orchestrator's ordering of generated script files
(upgrade.rs:236-241): the directory enumeration is collected into a list
and sorted (`scripts.sort()`), lexicographically as strings. -/
def sortScripts (paths : List String) : List String :=
  paths.insertionSort (· ≤ ·)

/-- The order in which the multi-step loop executes scripts
(upgrade.rs:285): iteration over the sorted list, front to back. -/
def multiStepExecutionOrder (enumerated : List String) : List String :=
  sortScripts enumerated

/-- Modelled from the spec: the ledger-resident approved execution hash
(read at upgrade.rs:298-300 through
`get_approved_execution_hash_at_aptos_governance`, whose ledger-side
implementation is external to the reviewed sources).  Per the spec it
equals the canonical hash of the next upgrade step allowed to execute,
or is absent once the chain is exhausted. -/
def approvedExecutionHashAt (scripts : List (List Nat)) (landed : Nat) : Option Nat :=
  (scripts.get? landed).map canonicalHash

/-- Why a multi-step run stops: a hash mismatch detected during
verification, or a rejected script-execution transaction (spec §6). -/
inductive AbortReason where
  | hashMismatch (stepIndex : Nat)
  | submissionError (stepIndex : Nat)
  deriving Repr, DecidableEq

/-- The externally determined outcome of one iteration of the
step-execution loop: whether `verify_proposal` reported the step as
verified, and whether the subsequent script-execution transaction was
accepted. -/
structure StepOutcome where
  verified : Bool
  submitOk : Bool
  deriving Repr, DecidableEq

/-- The step-execution loop of `test_upgrade_flow_multi_step`
(upgrade.rs:285-319) starting at step index `i`: each iteration first
checks the verification result (`assert!(verify_proposal_response.verified)`,
line 293 — a failure aborts the whole run before any transaction for that
step is submitted), then submits the script
(`run_script_with_script_path(..).unwrap()`, lines 311-318 — a rejected
submission also aborts the run).  Returns the indices of the steps whose
transactions were submitted, and the abort reason if the run stopped. -/
def runStepsFrom (i : Nat) : List StepOutcome → List Nat × Option AbortReason
  | [] => ([], none)
  | o :: rest =>
    if o.verified then
      if o.submitOk then
        let (tr, ab) := runStepsFrom (i + 1) rest
        (i :: tr, ab)
      else ([i], some (AbortReason.submissionError i))
    else ([], some (AbortReason.hashMismatch i))

/-- The whole step-execution loop, starting at step 0. -/
def runSteps (outs : List StepOutcome) : List Nat × Option AbortReason :=
  runStepsFrom 0 outs

/-- The ledger-side outcome of one submitted transaction. -/
inductive TxOutcome where
  | success
  | failure
  deriving Repr, DecidableEq

/-- The tracker owning the sender account's next unused sequence number
(spec §4.3).  The sources show the success path — upgrade.rs:87, 134 and
216 advance the locally tracked number by one
(`*root_account().sequence_number_mut() += 1`) after each submission that
was asserted successful. -/
structure SequenceTracker where
  nextVal : Nat
  deriving Repr, DecidableEq

/-- `next()` returns the current value and hands it to the transaction
being constructed (spec §4.3). -/
def SequenceTracker.next (t : SequenceTracker) : Nat × SequenceTracker :=
  (t.nextVal, t)

/-- On a confirmed success the tracked number advances by one, exactly as
the `+= 1` after each asserted-successful submission in the sources. -/
def SequenceTracker.observeSuccess (t : SequenceTracker) : SequenceTracker :=
  ⟨t.nextVal + 1⟩

/-- Modelled from the spec (§4.3): on a confirmed failure the tracker
must not advance, and the next `next()` call reuses the same number; the
sources only exercise the success path. -/
def SequenceTracker.observeFailure (t : SequenceTracker) : SequenceTracker :=
  t

/-- Drive the tracker over a sequence of submissions: each submission
consumes `next()`, then the tracker observes the outcome.  Returns the
final tracker and the sequence numbers of the successfully submitted
transactions, in submission order. -/
def submitAll (t : SequenceTracker) : List TxOutcome → SequenceTracker × List Nat
  | [] => (t, [])
  | o :: rest =>
    let (n, t1) := t.next
    match o with
    | TxOutcome.success =>
      let (tf, acc) := submitAll t1.observeSuccess rest
      (tf, n :: acc)
    | TxOutcome.failure => submitAll t1.observeFailure rest

/-- One observable action submitted through the CLI or the environment
during `test_upgrade_flow_multi_step`. -/
inductive GovAction where
  | runScriptRoot (path : String)
  | fundAccount (poolIdx : Nat)
  | initValidator (accountIdx : Nat)
  | initStakeOwner (poolIdx : Nat) (operatorIdx : Nat) (voterIdx : Nat)
  | increaseLockup (poolIdx : Nat)
  | createProposal (accountIdx : Nat) (script : Option String) (poolIdx : Nat)
  | vote (accountIdx : Nat) (proposalId : Nat) (poolIdx : Nat)
  | verifyProposal (proposalId : Nat) (path : String)
  | addApprovedScriptHash
  | readApprovedHash (proposalId : Nat)
  | runScript (accountIdx : Nat) (path : String) (args : List Nat)
  deriving Repr, DecidableEq

/-- Recognizes proposal-creation actions. -/
def GovAction.isCreateProposal : GovAction → Bool
  | GovAction.createProposal _ _ _ => true
  | _ => false

/-- The proposal identity an action operates under, when it names one:
votes, verification, approved-hash reads, and the proposal id passed as
the first script argument when running a step (upgrade.rs:310,
`ArgWithType::u64(0)`). -/
def GovAction.proposalIdUsed : GovAction → Option Nat
  | GovAction.vote _ pid _ => some pid
  | GovAction.verifyProposal pid _ => some pid
  | GovAction.readApprovedHash pid => some pid
  | GovAction.runScript _ _ args => args.get? 0
  | _ => none

/-- `true` when the action operates under proposal id 0 (or names no
proposal at all). -/
def GovAction.underProposalZero (a : GovAction) : Bool :=
  match a.proposalIdUsed with
  | some pid => pid == 0
  | none => true

/-- `true` unless the action is a script-execution step running under a
CLI account index other than `idx`. -/
def GovAction.runsAsIndex (idx : Nat) : GovAction → Bool
  | GovAction.runScript j _ _ => j == idx
  | _ => true

/-- Harness state the claims track: the locally cached sequence number of
the root account (`env.aptos_public_info().root_account()`). -/
structure TestState where
  rootSeq : Nat
  deriving Repr, DecidableEq

/-- The outer `validator_cli_index` binding of
`test_upgrade_flow_multi_step` (upgrade.rs:245):
`let mut validator_cli_index = 0;`.  The binding of the same name inside
the voter loop (line 251) is a fresh `let`, shadowing this one within the
loop body only; the outer binding is never reassigned. -/
def validatorCliIndexInit : Nat := 0

/-- One iteration of the voter-setup loop (upgrade.rs:246-279) for loop
counter `i`.  `initIdx i` is the fresh CLI account index returned by
`init_validator_account` in that iteration (external), which shadows the
outer `validator_cli_index` for the rest of the body.  A proposal is
created only when `i == 0`, from the first script of the sorted list
(`scripts.get(0)`), and each iteration votes on proposal 0. -/
def voterLoopIter (scripts : List String) (initIdx : Nat → Nat) (i : Nat) :
    List GovAction :=
  [GovAction.fundAccount i, GovAction.initValidator (initIdx i),
    GovAction.initStakeOwner i (initIdx i) (initIdx i), GovAction.increaseLockup i]
  ++ (if i == 0 then [GovAction.createProposal (initIdx i) (scripts.get? 0) i] else [])
  ++ [GovAction.vote (initIdx i) 0 i]

/-- The voter-setup loop: `while i < 2` starting from `i = 0`
(upgrade.rs:244-279). -/
def voterLoop (scripts : List String) (initIdx : Nat → Nat) : List GovAction :=
  (List.range 2).flatMap (voterLoopIter scripts initIdx)

/-- One iteration of the step-execution loop (upgrade.rs:285-319) over
script `path`: verify the script against proposal 0; if the
`add_approved_execution_hash` flag is set, call
`add_approved_script_hash_script`; read the approved execution hash of
proposal 0; run the script as CLI account `validatorCliIndex` with
argument list `[0]` (the proposal id). -/
def execLoopIter (validatorCliIndex : Nat) (flag : Bool) (path : String) :
    List GovAction :=
  [GovAction.verifyProposal 0 path]
  ++ (if flag then [GovAction.addApprovedScriptHash] else [])
  ++ [GovAction.readApprovedHash 0,
      GovAction.runScript validatorCliIndex path [0]]

/-- The step-execution loop (upgrade.rs:284-319): iterate over the sorted
scripts, threading the `add_approved_execution_hash` flag (initialized
`true` at line 284; no statement in the body assigns to it) and the
harness state (no statement in the body touches the root account's
sequence number). -/
def execLoop (validatorCliIndex : Nat) :
    Bool → TestState → List String → Bool × TestState × List GovAction
  | flag, st, [] => (flag, st, [])
  | flag, st, p :: rest =>
    let r := execLoop validatorCliIndex flag st rest
    (r.1, r.2.1, execLoopIter validatorCliIndex flag p ++ r.2.2)

/-- `test_upgrade_flow_multi_step` (upgrade.rs:151-331) as a trace of
actions over the harness state: submit the gas-schedule script as the
root account and advance the locally tracked root sequence number by one
(lines 196-216); sort the enumerated script paths (line 241); run the
voter-setup loop (lines 244-279); sleep out the voting window (line 282);
run the step-execution loop over the sorted scripts with the flag
initialized `true` and the outer `validator_cli_index`. -/
def multiStepTest (gasScriptPath : String) (enumerated : List String)
    (initIdx : Nat → Nat) (s : TestState) : TestState × List GovAction :=
  let s1 : TestState := { rootSeq := s.rootSeq + 1 }
  let sorted := sortScripts enumerated
  let r := execLoop validatorCliIndexInit true s1 sorted
  (r.2.1, GovAction.runScriptRoot gasScriptPath :: (voterLoop sorted initIdx ++ r.2.2))

/-- The genesis voting duration configured for the multi-step test
(upgrade.rs:162): `voting_duration_secs = 30`. -/
def votingDurationSecs : Nat := 30

/-- The unconditional wait after all votes are cast (upgrade.rs:281-282):
`thread::sleep(Duration::from_secs(30))`. -/
def postVoteSleepSecs : Nat := 30

/-- Logical-clock time at which verification of the first step begins:
the orchestrator reaches the verification loop only after the full sleep
following the moment the last vote was cast. -/
def verifyingStartTime (votesCastTime : Nat) : Nat :=
  votesCastTime + postVoteSleepSecs

end UpgradeFlow

open UpgradeFlow

theorem canonicalHash_injective : Function.Injective canonicalHash := by
  intro xs
  induction xs with
  | nil =>
    intro ys h
    cases ys with
    | nil => rfl
    | cons c t => simp [canonicalHash] at h
  | cons b rest ih =>
    intro ys h
    cases ys with
    | nil => simp [canonicalHash] at h
    | cons c t =>
      simp only [canonicalHash, Nat.add_right_cancel_iff, Nat.pair_eq_pair] at h
      obtain ⟨hb, hr⟩ := h
      rw [hb, ih hr]

/-- C1: for every script set, the multi-step loop executes the scripts in
the order obtained by sorting the enumerated file paths lexicographically;
provided the generator's naming convention lists the steps with strictly
increasing names (the spec's order-encoding contract), the executed order
is exactly the generator's index order 0..N-1, whatever order the
directory enumeration returned the paths in. -/
theorem multi_step_executes_in_sorted_index_order
    (generated enumerated : List String)
    (hperm : enumerated.Perm generated)
    (hnames : List.Pairwise (fun a b : String => a < b) generated) :
    multiStepExecutionOrder enumerated = generated ∧
    ∀ j : Nat, (multiStepExecutionOrder enumerated).get? j = generated.get? j := by
  have hsorted₁ : List.Sorted (fun a b : String => a ≤ b) (sortScripts enumerated) :=
    List.sorted_insertionSort _ _
  have hperm₁ : (sortScripts enumerated).Perm generated :=
    (List.perm_insertionSort _ _).trans hperm
  have hsorted₂ : List.Sorted (fun a b : String => a ≤ b) generated :=
    hnames.imp le_of_lt
  have heq : multiStepExecutionOrder enumerated = generated :=
    List.eq_of_perm_of_sorted hperm₁ hsorted₁ hsorted₂
  exact ⟨heq, fun j => by rw [heq]⟩

/-- C1 witness: a concrete two-script set enumerated out of order is
executed in index order. -/
theorem multi_step_executes_in_sorted_index_order_witness :
    multiStepExecutionOrder ["1-feature.move", "0-gas.move"] =
      ["0-gas.move", "1-feature.move"] :=
  (multi_step_executes_in_sorted_index_order
    ["0-gas.move", "1-feature.move"] ["1-feature.move", "0-gas.move"]
    (by decide)
    (by
      simp [List.pairwise_cons, String.lt_iff_toList_lt]
      decide)).1

/-- C2: verification succeeds exactly when the canonical hash of the
step's script bytes equals the on-chain approved execution hash, and
flipping any single byte of the script bytes makes a verification that
succeeded fail. -/
theorem verify_iff_hash_eq_and_byte_flip_fails
    (step : UpgradeStep) (onchain : Nat) (i : Nat) (b : Nat)
    (hi : i < step.script_bytes.length)
    (hb : b ≠ step.script_bytes.get ⟨i, hi⟩) :
    ((verify_proposal step onchain).verified = true ↔
      canonicalHash step.script_bytes = onchain) ∧
    ((verify_proposal step onchain).verified = true →
      (verify_proposal { step with script_bytes := step.script_bytes.set i b }
        onchain).verified = false) := by
  constructor
  · simp [verify_proposal]
  · intro hv
    have hhash : canonicalHash step.script_bytes = onchain := by
      simpa [verify_proposal] using hv
    have hne : step.script_bytes.set i b ≠ step.script_bytes := by
      intro hcontra
      apply hb
      have h1 : (step.script_bytes.set i b).get ⟨i, by simpa using hi⟩ = b := by
        rw [List.get_eq_getElem]
        exact List.getElem_set_self (by simpa using hi)
      rw [List.get_eq_getElem] at h1
      simp only [hcontra] at h1
      simpa [List.get_eq_getElem] using h1.symm
    have : canonicalHash (step.script_bytes.set i b) ≠ onchain := by
      rw [← hhash]
      exact fun hcontra => hne (canonicalHash_injective hcontra)
    simp [verify_proposal, this]

/-- C2 witness: concrete instance — the hash of `[1, 2]` verifies against
itself, and flipping the second byte to `3` fails verification. -/
theorem verify_iff_hash_eq_and_byte_flip_fails_witness :
    ((verify_proposal ⟨0, [1, 2], "p"⟩ (canonicalHash [1, 2])).verified = true ↔
      canonicalHash [1, 2] = canonicalHash [1, 2]) ∧
    ((verify_proposal ⟨0, [1, 2], "p"⟩ (canonicalHash [1, 2])).verified = true →
      (verify_proposal ⟨0, [1, 3], "p"⟩ (canonicalHash [1, 2])).verified = false) :=
  verify_iff_hash_eq_and_byte_flip_fails ⟨0, [1, 2], "p"⟩ (canonicalHash [1, 2])
    1 3 (by decide) (by decide)

/-- C3: while step `i` is the next step allowed to execute (`Verifying(i)`:
`i` steps have landed), the on-chain approved execution hash is exactly the
canonical hash of step `i`, so verifying step `i` against it succeeds; a
premature verification of step `i+1`, before step `i` lands, fails whenever
the two scripts differ. -/
theorem approved_hash_is_next_step_and_premature_verify_fails
    (scripts : List (List Nat)) (i : Nat) (h : Nat)
    (hi : i + 1 < scripts.length)
    (hne : scripts.get ⟨i, Nat.lt_of_succ_lt hi⟩ ≠ scripts.get ⟨i + 1, hi⟩)
    (hh : approvedExecutionHashAt scripts i = some h) :
    h = canonicalHash (scripts.get ⟨i, Nat.lt_of_succ_lt hi⟩) ∧
    (verify_proposal ⟨i, scripts.get ⟨i, Nat.lt_of_succ_lt hi⟩, ""⟩ h).verified = true ∧
    (verify_proposal ⟨i + 1, scripts.get ⟨i + 1, hi⟩, ""⟩ h).verified = false := by
  have hget : scripts.get? i = some (scripts.get ⟨i, Nat.lt_of_succ_lt hi⟩) :=
    List.get?_eq_get (Nat.lt_of_succ_lt hi)
  have hval : canonicalHash (scripts.get ⟨i, Nat.lt_of_succ_lt hi⟩) = h := by
    unfold approvedExecutionHashAt at hh
    rw [hget] at hh
    simpa using hh
  refine ⟨hval.symm, ?_, ?_⟩
  · show (canonicalHash (scripts.get ⟨i, Nat.lt_of_succ_lt hi⟩) == h) = true
    rw [hval]
    exact beq_self_eq_true h
  · show (canonicalHash (scripts.get ⟨i + 1, hi⟩) == h) = false
    simp only [beq_eq_false_iff_ne, ne_eq]
    rw [← hval]
    exact fun hcontra => hne (canonicalHash_injective hcontra).symm

/-- C3 witness: with a concrete two-step script set and one step landed
... (no steps landed, step 0 next), the approved hash names step 0: step 0
verifies, a premature verification of step 1 fails. -/
theorem approved_hash_is_next_step_and_premature_verify_fails_witness :
    canonicalHash [7] = canonicalHash ([[7], [8]].get ⟨0, by decide⟩) ∧
    (verify_proposal ⟨0, [[7], [8]].get ⟨0, by decide⟩, ""⟩
      (canonicalHash [7])).verified = true ∧
    (verify_proposal ⟨1, [[7], [8]].get ⟨1, by decide⟩, ""⟩
      (canonicalHash [7])).verified = false :=
  approved_hash_is_next_step_and_premature_verify_fails [[7], [8]] 0
    (canonicalHash [7]) (by decide) (by decide) (by decide)

theorem runStepsFrom_hashMismatch :
    ∀ (outs : List StepOutcome) (s i : Nat) (hi : i < outs.length),
    (∀ j, (hj : j < i) → (outs.get ⟨j, Nat.lt_trans hj hi⟩).verified = true ∧
        (outs.get ⟨j, Nat.lt_trans hj hi⟩).submitOk = true) →
    (outs.get ⟨i, hi⟩).verified = false →
    runStepsFrom s outs = (List.range' s i, some (AbortReason.hashMismatch (s + i)))
  | o :: rest, s, 0, _, _, hfail => by
    simp only [List.get] at hfail
    simp [runStepsFrom, hfail, List.range']
  | o :: rest, s, i + 1, hi, hprev, hfail => by
    have h0 := hprev 0 (Nat.succ_pos i)
    simp only [List.get] at h0 hfail
    have ih := runStepsFrom_hashMismatch rest (s + 1) i (Nat.lt_of_succ_lt_succ hi)
      (fun j hj => hprev (j + 1) (Nat.succ_lt_succ hj)) hfail
    simp [runStepsFrom, h0.1, h0.2, ih, List.range', Nat.add_assoc, Nat.add_comm 1 i]

theorem runStepsFrom_submissionError :
    ∀ (outs : List StepOutcome) (s i : Nat) (hi : i < outs.length),
    (∀ j, (hj : j < i) → (outs.get ⟨j, Nat.lt_trans hj hi⟩).verified = true ∧
        (outs.get ⟨j, Nat.lt_trans hj hi⟩).submitOk = true) →
    (outs.get ⟨i, hi⟩).verified = true →
    (outs.get ⟨i, hi⟩).submitOk = false →
    runStepsFrom s outs = (List.range' s (i + 1), some (AbortReason.submissionError (s + i)))
  | o :: rest, s, 0, _, _, hver, hsub => by
    simp only [List.get] at hver hsub
    simp [runStepsFrom, hver, hsub, List.range']
  | o :: rest, s, i + 1, hi, hprev, hver, hsub => by
    have h0 := hprev 0 (Nat.succ_pos i)
    simp only [List.get] at h0 hver hsub
    have ih := runStepsFrom_submissionError rest (s + 1) i (Nat.lt_of_succ_lt_succ hi)
      (fun j hj => hprev (j + 1) (Nat.succ_lt_succ hj)) hver hsub
    simp [runStepsFrom, h0.1, h0.2, ih, List.range', Nat.add_assoc, Nat.add_comm 1 i]

/-- C4: if every step before `i` verified and landed, and step `i` fails
verification, the run aborts with a hash mismatch before any transaction
for step `i` is submitted — only steps `0..i-1` were submitted, and no
step from `i` onwards is ever executed; likewise, if step `i` verifies but
its submission is rejected, the run aborts there and no later step is
executed. -/
theorem run_aborts_on_step_failure
    (outs : List StepOutcome) (i : Nat) (hi : i < outs.length)
    (hprev : ∀ j, (hj : j < i) → (outs.get ⟨j, Nat.lt_trans hj hi⟩).verified = true ∧
        (outs.get ⟨j, Nat.lt_trans hj hi⟩).submitOk = true) :
    ((outs.get ⟨i, hi⟩).verified = false →
        runSteps outs = (List.range i, some (AbortReason.hashMismatch i)) ∧
        i ∉ (runSteps outs).1 ∧ ∀ k, i ≤ k → k ∉ (runSteps outs).1) ∧
    ((outs.get ⟨i, hi⟩).verified = true → (outs.get ⟨i, hi⟩).submitOk = false →
        runSteps outs = (List.range (i + 1), some (AbortReason.submissionError i)) ∧
        ∀ k, i < k → k ∉ (runSteps outs).1) := by
  constructor
  · intro hfail
    have hrun : runSteps outs = (List.range i, some (AbortReason.hashMismatch i)) := by
      have := runStepsFrom_hashMismatch outs 0 i hi hprev hfail
      simpa [runSteps, List.range_eq_range'] using this
    refine ⟨hrun, ?_, ?_⟩
    · rw [hrun]; simp
    · intro k hk
      rw [hrun]
      simp only [List.mem_range]
      omega
  · intro hver hsub
    have hrun : runSteps outs = (List.range (i + 1), some (AbortReason.submissionError i)) := by
      have := runStepsFrom_submissionError outs 0 i hi hprev hver hsub
      simpa [runSteps, List.range_eq_range'] using this
    refine ⟨hrun, ?_⟩
    intro k hk
    rw [hrun]
    simp only [List.mem_range]
    omega

/-- C4 witness: a concrete run whose second step fails verification stops
with a hash mismatch at step 1, having submitted only step 0. -/
theorem run_aborts_on_step_failure_witness :
    runSteps [⟨true, true⟩, ⟨false, true⟩] =
      (List.range 1, some (AbortReason.hashMismatch 1)) ∧
    1 ∉ (runSteps [⟨true, true⟩, ⟨false, true⟩]).1 :=
  let h := (run_aborts_on_step_failure [⟨true, true⟩, ⟨false, true⟩] 1 (by decide)
    (fun j hj => by
      have hj0 : j = 0 := by omega
      subst hj0
      exact ⟨rfl, rfl⟩)).1 rfl
  ⟨h.1, h.2.1⟩

theorem range'_chain_consecutive :
    ∀ (n s : Nat), (List.range' s n).Chain' (fun a b => b = a + 1)
  | 0, _ => by simp [List.range']
  | 1, _ => by simp [List.range']
  | n + 2, s => by
    have ih := range'_chain_consecutive (n + 1) (s + 1)
    exact List.Chain'.cons rfl ih

/-- C5: driving the tracker from `s0` over any sequence of submission
outcomes, the successfully submitted transactions carry the consecutive
sequence numbers `s0, s0+1, …` — one increment per success, strictly
increasing with no gaps and no duplicates — the tracker ends at `s0 + k`
after `k` successes, and a failed submission leaves the tracker where it
was, so the number just consumed is reused. -/
theorem sequence_numbers_consecutive (s0 : Nat) (outs : List TxOutcome) :
    submitAll ⟨s0⟩ outs =
      (⟨s0 + outs.count TxOutcome.success⟩,
        List.range' s0 (outs.count TxOutcome.success)) ∧
    (submitAll ⟨s0⟩ outs).2.Chain' (fun a b => b = a + 1) ∧
    submitAll ⟨s0⟩ (TxOutcome.failure :: outs) = submitAll ⟨s0⟩ outs := by
  have main : ∀ (os : List TxOutcome) (s : Nat),
      submitAll ⟨s⟩ os =
        (⟨s + os.count TxOutcome.success⟩, List.range' s (os.count TxOutcome.success)) := by
    intro os
    induction os with
    | nil => intro s; simp [submitAll, List.range']
    | cons o rest ih =>
      intro s
      cases o with
      | success =>
        simp [submitAll, SequenceTracker.next, SequenceTracker.observeSuccess,
          ih (s + 1), List.count_cons, List.range', Nat.add_assoc, Nat.add_comm 1]
      | failure =>
        simp [submitAll, SequenceTracker.next, SequenceTracker.observeFailure,
          ih s, List.count_cons]
  refine ⟨main outs s0, ?_, ?_⟩
  · rw [main outs s0]
    exact range'_chain_consecutive _ _
  · simp [submitAll, SequenceTracker.next, SequenceTracker.observeFailure]

theorem execLoop_flag_state_actions (v : Nat) (flag : Bool) (st : TestState) :
    ∀ paths : List String,
      execLoop v flag st paths = (flag, st, paths.flatMap (execLoopIter v flag))
  | [] => rfl
  | p :: rest => by
    simp [execLoop, execLoop_flag_state_actions v flag st rest]

theorem execLoopIter_no_createProposal (v : Nat) (flag : Bool) (p : String) :
    (execLoopIter v flag p).filter GovAction.isCreateProposal = [] := by
  cases flag <;> simp [execLoopIter, GovAction.isCreateProposal]

theorem execLoopIter_all_props (v : Nat) (flag : Bool) (p : String) :
    (execLoopIter v flag p).all GovAction.underProposalZero = true ∧
    (execLoopIter v flag p).all (GovAction.runsAsIndex v) = true := by
  cases flag <;>
    simp [execLoopIter, GovAction.underProposalZero, GovAction.proposalIdUsed,
      GovAction.runsAsIndex]

/-- C6: exactly one proposal is created in the whole multi-step run — by
the account initialized in the first voter iteration, from the first
script in sorted order, against pool 0 — and every action that operates
under a proposal identity (votes, verification, approved-hash reads, and
the proposal id passed as script argument to each step execution) uses
proposal id 0, never a fresh proposal. -/
theorem single_proposal_for_step_zero (gasPath : String) (enumerated : List String)
    (initIdx : Nat → Nat) (s : TestState) :
    ((multiStepTest gasPath enumerated initIdx s).2.filter GovAction.isCreateProposal) =
      [GovAction.createProposal (initIdx 0) ((sortScripts enumerated).get? 0) 0] ∧
    ((multiStepTest gasPath enumerated initIdx s).2.all GovAction.underProposalZero) =
      true := by
  have hrange : List.range 2 = [0, 1] := rfl
  have hexec := execLoop_flag_state_actions validatorCliIndexInit true
    { rootSeq := s.rootSeq + 1 } (sortScripts enumerated)
  constructor
  · simp only [multiStepTest, hexec, voterLoop, hrange]
    simp only [List.filter_cons, List.filter_append]
    have hflat : ((sortScripts enumerated).flatMap
        (execLoopIter validatorCliIndexInit true)).filter GovAction.isCreateProposal
          = [] := by
      induction sortScripts enumerated with
      | nil => rfl
      | cons q qs ih =>
        simp [List.filter_append, ih, execLoopIter_no_createProposal]
    simp [hflat, voterLoopIter, GovAction.isCreateProposal, List.filter_cons]
  · simp only [multiStepTest, hexec, voterLoop, hrange]
    have hflat : ((sortScripts enumerated).flatMap
        (execLoopIter validatorCliIndexInit true)).all GovAction.underProposalZero
          = true := by
      induction sortScripts enumerated with
      | nil => rfl
      | cons q qs ih =>
        simp only [List.flatMap_cons, List.all_append, ih, Bool.and_true]
        exact (execLoopIter_all_props validatorCliIndexInit true q).1
    simp [hflat, voterLoopIter, GovAction.underProposalZero, GovAction.proposalIdUsed]

/-- C8: the `add_approved_execution_hash` flag enters the step-execution
loop as `true` and is never modified — it is still `true` after the loop,
and the guarded `add_approved_script_hash_script()` call runs in every
iteration, once per script, not only for the first step. -/
theorem add_approved_hash_every_iteration (v : Nat) (st : TestState)
    (paths : List String) :
    (execLoop v true st paths).1 = true ∧
    ((execLoop v true st paths).2.2.count GovAction.addApprovedScriptHash) =
      paths.length := by
  rw [execLoop_flag_state_actions]
  refine ⟨rfl, ?_⟩
  induction paths with
  | nil => rfl
  | cons p rest ih =>
    simp [List.count_append, ih, execLoopIter, List.count_cons]

/-- C9: the outer `validator_cli_index` is 0 and, the inner binding of
the voter loop being a mere shadow, every script-execution action of the
multi-step run is submitted under CLI account index 0, whatever account
indices the validator initialization during voting produced. -/
theorem every_step_runs_as_account_zero (gasPath : String)
    (enumerated : List String) (initIdx : Nat → Nat) (s : TestState) :
    validatorCliIndexInit = 0 ∧
    ((multiStepTest gasPath enumerated initIdx s).2.all (GovAction.runsAsIndex 0)) =
      true := by
  have hrange : List.range 2 = [0, 1] := rfl
  have hexec := execLoop_flag_state_actions validatorCliIndexInit true
    { rootSeq := s.rootSeq + 1 } (sortScripts enumerated)
  refine ⟨rfl, ?_⟩
  simp only [multiStepTest, hexec, voterLoop, hrange]
  have hflat : ((sortScripts enumerated).flatMap
      (execLoopIter validatorCliIndexInit true)).all (GovAction.runsAsIndex 0) =
        true := by
    induction sortScripts enumerated with
    | nil => rfl
    | cons q qs ih =>
      simp only [List.flatMap_cons, List.all_append, ih, Bool.and_true]
      exact (execLoopIter_all_props validatorCliIndexInit true q).2
  simp [hflat, voterLoopIter, GovAction.runsAsIndex]

/-- C10: across the whole multi-step test the locally tracked root-account
sequence number advances exactly once — after the initial gas-schedule
script submission — and the step-execution loop leaves it untouched: the
loop returns whatever harness state it was given, for any flag, account
index and script list. -/
theorem root_seq_incremented_once_and_loop_frames_it (gasPath : String)
    (enumerated : List String) (initIdx : Nat → Nat) (s : TestState) :
    (multiStepTest gasPath enumerated initIdx s).1.rootSeq = s.rootSeq + 1 ∧
    ∀ (v : Nat) (flag : Bool) (st : TestState) (paths : List String),
      (execLoop v flag st paths).2.1 = st := by
  constructor
  · simp [multiStepTest, execLoop_flag_state_actions]
  · intro v flag st paths
    rw [execLoop_flag_state_actions]

/-- C7: verification cannot begin before the voting window has elapsed:
whenever the last vote lands at time `t`, the orchestrator sleeps the full
configured voting duration of 30 seconds — the sleep equals the genesis
`voting_duration_secs` — so the first verification starts exactly at
`t + 30`, never before second 30, no matter how quickly the votes
arrived. -/
theorem voting_window_fully_elapses_before_verification (t : Nat) :
    verifyingStartTime t = t + votingDurationSecs ∧
    votingDurationSecs ≤ verifyingStartTime t ∧
    postVoteSleepSecs = votingDurationSecs := by
  refine ⟨rfl, ?_, rfl⟩
  simp [verifyingStartTime, votingDurationSecs, postVoteSleepSecs]
